import Mathlib

/-!
# Oriented bounding box (`include/common/obb.h`)

A shallow embedding of `common::OrientedBoundingBox`: the value type, its wire
format (`serialize` / `deserialize`) and the constructor that fits a box to a
point cloud by principal-axis analysis.

Scalars (`float` in the source) are an arbitrary type `K`; the fitting
constructor and the order-related statements take `K` to be a linear ordered
field, i.e. they are statements over exact arithmetic.
-/

set_option autoImplicit false

namespace common

/-! ## Data model -/

/-- The type `Eigen::Vector3f`: three scalar components. -/
structure Vector3f (K : Type) where
  x : K
  y : K
  z : K
deriving DecidableEq, Repr

/-- The type `Eigen::Quaternionf`, built as `Quaternionf(w, x, y, z)` (scalar first). -/
structure Quaternionf (K : Type) where
  w : K
  x : K
  y : K
  z : K
deriving DecidableEq, Repr

/-- The type `Eigen::Matrix3f`, kept as its three columns `col(0)`, `col(1)`, `col(2)`. -/
structure Matrix3f (K : Type) where
  c0 : Vector3f K
  c1 : Vector3f K
  c2 : Vector3f K
deriving DecidableEq, Repr

/-- The fields of `class OrientedBoundingBox` (obb.h, lines 45-48); building a value with
the structure constructor is the explicit-parameter constructor of lines 19-27, which
only stores its five arguments. -/
structure OrientedBoundingBox (K : Type) where
  translation : Vector3f K
  rotation : Quaternionf K
  width : K
  height : K
  depth : K
deriving DecidableEq, Repr

/-! ## Wire format -/

/-- `OrientedBoundingBox::serialize` (obb.h, lines 85-101): ten `push_back` calls on the
target vector; `reserve` does not change its contents. The result is the new target. -/
def OrientedBoundingBox.serialize {K : Type} (b : OrientedBoundingBox K)
    (target : List K) : List K :=
  target ++ [b.translation.x, b.translation.y, b.translation.z,
             b.rotation.w, b.rotation.x, b.rotation.y, b.rotation.z,
             b.width, b.height, b.depth]

/-- `OrientedBoundingBox::deserialize` (obb.h, lines 103-112): the indexed reads
`source[0]` .. `source[9]`, then the explicit-parameter constructor. A read past the end
of the vector has no defined value, so it yields `none`. The source keeps the three
extents in `double` locals before narrowing them back to `float`; widening a `float` and
narrowing it again returns the same value, so no conversion appears here. -/
def OrientedBoundingBox.deserialize {K : Type} (source : List K) :
    Option (OrientedBoundingBox K) := do
  let t0 ← source[0]?
  let t1 ← source[1]?
  let t2 ← source[2]?
  let translation : Vector3f K := ⟨t0, t1, t2⟩
  let qw ← source[3]?
  let qx ← source[4]?
  let qy ← source[5]?
  let qz ← source[6]?
  let rotation : Quaternionf K := ⟨qw, qx, qy, qz⟩
  let width ← source[7]?
  let height ← source[8]?
  let depth ← source[9]?
  return ⟨translation, rotation, width, height, depth⟩

section Algebra

variable {K : Type} [LinearOrderedField K]

/-- Vector addition, `a + b` on `Eigen::Vector3f`. -/
def Vector3f.add (a b : Vector3f K) : Vector3f K :=
  ⟨a.x + b.x, a.y + b.y, a.z + b.z⟩

/-- Vector subtraction, `a - b` on `Eigen::Vector3f`. -/
def Vector3f.sub (a b : Vector3f K) : Vector3f K :=
  ⟨a.x - b.x, a.y - b.y, a.z - b.z⟩

/-- Scaling by a scalar, `s * a` on `Eigen::Vector3f`. -/
def Vector3f.smul (s : K) (a : Vector3f K) : Vector3f K :=
  ⟨s * a.x, s * a.y, s * a.z⟩

/-- The inner product `a.dot(b)`. -/
def Vector3f.dot (a b : Vector3f K) : K :=
  a.x * b.x + a.y * b.y + a.z * b.z

/-- The cross product `a.cross(b)`. -/
def Vector3f.cross (a b : Vector3f K) : Vector3f K :=
  ⟨a.y * b.z - a.z * b.y, a.z * b.x - a.x * b.z, a.x * b.y - a.y * b.x⟩

/-- The transpose `m.transpose()`: its columns are the rows of `m`. -/
def Matrix3f.transpose (m : Matrix3f K) : Matrix3f K :=
  ⟨⟨m.c0.x, m.c1.x, m.c2.x⟩, ⟨m.c0.y, m.c1.y, m.c2.y⟩, ⟨m.c0.z, m.c1.z, m.c2.z⟩⟩

/-- The matrix-vector product `m * v`: the combination of the columns of `m` with the
components of `v`. -/
def Matrix3f.mulVec (m : Matrix3f K) (v : Vector3f K) : Vector3f K :=
  ⟨m.c0.x * v.x + m.c1.x * v.y + m.c2.x * v.z,
   m.c0.y * v.x + m.c1.y * v.y + m.c2.y * v.z,
   m.c0.z * v.x + m.c1.z * v.y + m.c2.z * v.z⟩

/-- The determinant of a 3x3 matrix, expanded along its first row. -/
def Matrix3f.determinant (m : Matrix3f K) : K :=
  m.c0.x * (m.c1.y * m.c2.z - m.c2.y * m.c1.z)
    - m.c1.x * (m.c0.y * m.c2.z - m.c2.y * m.c0.z)
    + m.c2.x * (m.c0.y * m.c1.z - m.c1.y * m.c0.z)

/-- The first two columns are unit vectors orthogonal to each other. -/
def Matrix3f.firstTwoOrthonormal (m : Matrix3f K) : Prop :=
  m.c0.dot m.c0 = 1 ∧ m.c1.dot m.c1 = 1 ∧ m.c0.dot m.c1 = 0

/-- All three columns are unit vectors, pairwise orthogonal. -/
def Matrix3f.orthonormalColumns (m : Matrix3f K) : Prop :=
  m.c0.dot m.c0 = 1 ∧ m.c1.dot m.c1 = 1 ∧ m.c2.dot m.c2 = 1 ∧
    m.c0.dot m.c1 = 0 ∧ m.c0.dot m.c2 = 0 ∧ m.c1.dot m.c2 = 0

instance (m : Matrix3f K) : Decidable m.firstTwoOrthonormal := by
  unfold Matrix3f.firstTwoOrthonormal; infer_instance

instance (m : Matrix3f K) : Decidable m.orthonormalColumns := by
  unfold Matrix3f.orthonormalColumns; infer_instance

/-- The squared norm `q.squaredNorm()` of a quaternion. -/
def Quaternionf.squaredNorm (q : Quaternionf K) : K :=
  q.w * q.w + q.x * q.x + q.y * q.y + q.z * q.z

/-- The data-model invariant "rotation must be a unit quaternion (normalized)": the norm
is 1, which holds exactly when the squared norm is 1. -/
def Quaternionf.isUnit (q : Quaternionf K) : Prop :=
  q.squaredNorm = 1

/-- The data-model invariant "width, height, depth >= 0". -/
def OrientedBoundingBox.extentsNonneg (b : OrientedBoundingBox K) : Prop :=
  0 ≤ b.width ∧ 0 ≤ b.height ∧ 0 ≤ b.depth

instance (q : Quaternionf K) : Decidable q.isUnit := by
  unfold Quaternionf.isUnit; infer_instance

instance (b : OrientedBoundingBox K) : Decidable b.extentsNonneg := by
  unfold OrientedBoundingBox.extentsNonneg; infer_instance

/-- The part of `Eigen::Matrix4f p2w` that the constructor writes: the 3x3 block at
(0,0) and the 3x1 block at (0,3). The bottom row stays `(0, 0, 0, 1)` from `Identity()`. -/
structure Matrix4f (K : Type) where
  linear : Matrix3f K
  offset : Vector3f K

end Algebra

/-! ## Point-cloud helpers

The functions of the Point Cloud Library that the constructor calls. A cloud is the list
of its point positions; the colour of a `PointXYZRGB` takes no part in the computation. -/

section Cloud

variable {K : Type} [LinearOrderedField K]

/-- Modelled from the spec: `pcl::compute3DCentroid`, which is library code outside this
repository: "the centroid (arithmetic mean position) of all points". -/
def compute3DCentroid (cloud : List (Vector3f K)) : Vector3f K :=
  ⟨(cloud.map (fun p => p.x)).sum / (cloud.length : K),
   (cloud.map (fun p => p.y)).sum / (cloud.length : K),
   (cloud.map (fun p => p.z)).sum / (cloud.length : K)⟩

/-- One entry of the normalized covariance: the mean of the products of the deviations of
two coordinates from the centroid. -/
def covarianceEntry (cloud : List (Vector3f K)) (centroid : Vector3f K)
    (f g : Vector3f K → K) : K :=
  (cloud.map (fun p => (f p - f centroid) * (g p - g centroid))).sum / (cloud.length : K)

/-- Modelled from the spec: `pcl::computeCovarianceMatrixNormalized`, which is library code
outside this repository: "the normalized covariance matrix of the point positions relative
to the centroid (3x3 symmetric matrix; normalized means divided by point count)". -/
def computeCovarianceMatrixNormalized (cloud : List (Vector3f K)) (centroid : Vector3f K) :
    Matrix3f K :=
  ⟨⟨covarianceEntry cloud centroid Vector3f.x Vector3f.x,
    covarianceEntry cloud centroid Vector3f.y Vector3f.x,
    covarianceEntry cloud centroid Vector3f.z Vector3f.x⟩,
   ⟨covarianceEntry cloud centroid Vector3f.x Vector3f.y,
    covarianceEntry cloud centroid Vector3f.y Vector3f.y,
    covarianceEntry cloud centroid Vector3f.z Vector3f.y⟩,
   ⟨covarianceEntry cloud centroid Vector3f.x Vector3f.z,
    covarianceEntry cloud centroid Vector3f.y Vector3f.z,
    covarianceEntry cloud centroid Vector3f.z Vector3f.z⟩⟩

/-- Modelled from the spec: `pcl::transformPointCloud`, which is library code outside this
repository: "transform every input point into this local frame using that transform",
i.e. each point `p` becomes `linear * p + offset`. -/
def transformPointCloud (cloud : List (Vector3f K)) (transform : Matrix4f K) :
    List (Vector3f K) :=
  cloud.map (fun p => (transform.linear.mulVec p).add transform.offset)

/-- One step of the min/max scan: the componentwise minimum and maximum with a further
point. -/
def minMaxStep (acc : Vector3f K × Vector3f K) (p : Vector3f K) :
    Vector3f K × Vector3f K :=
  (⟨min acc.1.x p.x, min acc.1.y p.y, min acc.1.z p.z⟩,
   ⟨max acc.2.x p.x, max acc.2.y p.y, max acc.2.z p.z⟩)

/-- Modelled from the spec: `pcl::getMinMax3D`, which is library code outside this
repository: "the axis-aligned min and max corner of the transformed points (exact min/max
per axis)". The scan runs over the points in order; an empty cloud has no corners. -/
def getMinMax3D (cloud : List (Vector3f K)) : Option (Vector3f K × Vector3f K) :=
  match cloud with
  | [] => none
  | p :: ps => some (ps.foldl minMaxStep (p, p))

/-- The values `lo` and `hi` are the exact minimum and maximum of the coordinate `f` over
the points `pts`: they bound `f` on `pts` and each is the coordinate of some point. -/
def isExactRange (pts : List (Vector3f K)) (f : Vector3f K → K) (lo hi : K) : Prop :=
  (∀ q ∈ pts, lo ≤ f q ∧ f q ≤ hi) ∧ (∃ q ∈ pts, f q = lo) ∧ (∃ q ∈ pts, f q = hi)

end Cloud

/-! ## The fitting constructor -/

section Fit

variable {K : Type} [LinearOrderedField K]

/-- Line 63: `eigDx.col(2) = eigDx.col(0).cross(eigDx.col(1))`. -/
def Matrix3f.setCol2ToCross (eigDx : Matrix3f K) : Matrix3f K :=
  ⟨eigDx.c0, eigDx.c1, eigDx.c0.cross eigDx.c1⟩

/-- Lines 56-63: the matrix `eigDx` after its third column has been overwritten.
`eigenvectors` stands for `Eigen::SelfAdjointEigenSolver` followed by `.eigenvectors()`,
a function of the covariance matrix. -/
def OrientedBoundingBox.eigDx (eigenvectors : Matrix3f K → Matrix3f K)
    (cloud : List (Vector3f K)) : Matrix3f K :=
  (eigenvectors (computeCovarianceMatrixNormalized cloud (compute3DCentroid cloud))).setCol2ToCross

/-- Lines 66-68: the transform `p2w`, with linear block `eigDx.transpose()` and offset
`-1.f * (block * centroid)`. -/
def OrientedBoundingBox.p2w (eigDx : Matrix3f K) (centroid : Vector3f K) : Matrix4f K :=
  ⟨eigDx.transpose, Vector3f.smul (-1) (eigDx.transpose.mulVec centroid)⟩

/-- Lines 69-70: the cloud `cPoints`, the input points moved to the principal-axis frame. -/
def OrientedBoundingBox.cPoints (eigenvectors : Matrix3f K → Matrix3f K)
    (cloud : List (Vector3f K)) : List (Vector3f K) :=
  transformPointCloud cloud
    (OrientedBoundingBox.p2w (OrientedBoundingBox.eigDx eigenvectors cloud)
      (compute3DCentroid cloud))

/-- The constructor `OrientedBoundingBox(const SharedPointCloudRGB&)` (obb.h, lines 51-83).
`eigenvectors` is the eigen solver and `toQuaternion` the conversion
`Eigen::Quaternionf(eigDx)`, both library code. For an empty cloud the centroid and the
corners are not defined, and there is no box. -/
def OrientedBoundingBox.fit (eigenvectors : Matrix3f K → Matrix3f K)
    (toQuaternion : Matrix3f K → Quaternionf K) (cloud : List (Vector3f K)) :
    Option (OrientedBoundingBox K) :=
  let centroid := compute3DCentroid cloud
  let eigDx := OrientedBoundingBox.eigDx eigenvectors cloud
  match getMinMax3D (OrientedBoundingBox.cPoints eigenvectors cloud) with
  | none => none
  | some (min_pt, max_pt) =>
    let mean_diag := Vector3f.smul (1 / 2) (max_pt.add min_pt)
    some
      { rotation := toQuaternion eigDx
        translation := (eigDx.mulVec mean_diag).add centroid
        width := max_pt.x - min_pt.x
        height := max_pt.y - min_pt.y
        depth := max_pt.z - min_pt.z }

/-- The coordinates of a world point in the local frame of a box whose axes are the
columns of `axes` and whose centre is `centre`: `axes^T * (p - centre)`. -/
def localCoordinates (axes : Matrix3f K) (centre : Vector3f K) (p : Vector3f K) :
    Vector3f K :=
  axes.transpose.mulVec (p.sub centre)

end Fit

/-! ## Sample inputs -/

/-- A solver answer with orthonormal first two columns and a left-handed third column
(determinant -1). Overwriting the third column gives the half turn about the x axis. -/
def sampleEigenvectors : Matrix3f ℚ → Matrix3f ℚ :=
  fun _ => ⟨⟨1, 0, 0⟩, ⟨0, -1, 0⟩, ⟨0, 0, 1⟩⟩

/-- The matrix-to-quaternion conversion on the sample inputs: the quaternion of the half
turn about the x axis. -/
def sampleToQuaternion : Matrix3f ℚ → Quaternionf ℚ :=
  fun _ => ⟨0, 1, 0, 0⟩

/-- A cloud of three points. -/
def sampleCloud : List (Vector3f ℚ) :=
  [⟨0, 0, 0⟩, ⟨2, 1, 0⟩, ⟨1, 3, 5⟩]

/-! ## Default construction -/

/-- The default constructor `OrientedBoundingBox() {}` (obb.h, line 17): no member
initialiser and an empty body. The default constructors of `Eigen::Vector3f` and
`Eigen::Quaternionf` leave their coefficients unset and the three `float` members are not
assigned, so the object keeps the contents `storage` of the memory it is built in. -/
def OrientedBoundingBox.defaultConstructed {K : Type} (storage : OrientedBoundingBox K) :
    OrientedBoundingBox K :=
  storage

/-- The "zero/identity state" of the spec: translation (0,0,0), the identity quaternion
(w = 1, x = y = z = 0) and width = height = depth = 0. -/
def OrientedBoundingBox.zeroIdentity {K : Type} [LinearOrderedField K] :
    OrientedBoundingBox K :=
  ⟨⟨0, 0, 0⟩, ⟨1, 0, 0, 0⟩, 0, 0, 0⟩

/-- Storage with every byte zero, as for an object of static storage duration: every
scalar is 0, the scalar part of the quaternion included. -/
def OrientedBoundingBox.zeroedStorage {K : Type} [LinearOrderedField K] :
    OrientedBoundingBox K :=
  ⟨⟨0, 0, 0⟩, ⟨0, 0, 0, 0⟩, 0, 0, 0⟩

/-! ## The world-to-local transform on one point -/

/-- The image of one point under a transform with bottom row `(0, 0, 0, 1)`:
`linear * p + offset`, which is what `transformPointCloud` does to every point. -/
def Matrix4f.transformPoint {K : Type} [LinearOrderedField K] (transform : Matrix4f K)
    (p : Vector3f K) : Vector3f K :=
  (transform.linear.mulVec p).add transform.offset

/-! ## The unit cube -/

/-- The eight corners (+-1/2, +-1/2, +-1/2) of the axis-aligned unit cube centred at the
origin. -/
def unitCube {K : Type} [LinearOrderedField K] : List (Vector3f K) :=
  [⟨-1 / 2, -1 / 2, -1 / 2⟩, ⟨-1 / 2, -1 / 2, 1 / 2⟩, ⟨-1 / 2, 1 / 2, -1 / 2⟩,
   ⟨-1 / 2, 1 / 2, 1 / 2⟩, ⟨1 / 2, -1 / 2, -1 / 2⟩, ⟨1 / 2, -1 / 2, 1 / 2⟩,
   ⟨1 / 2, 1 / 2, -1 / 2⟩, ⟨1 / 2, 1 / 2, 1 / 2⟩]

/-- The solver answer whose columns are the coordinate axes in their order, which is the
eigenvector matrix of a diagonal covariance with no column swapped. -/
def identityEigenvectors : Matrix3f ℚ → Matrix3f ℚ :=
  fun _ => ⟨⟨1, 0, 0⟩, ⟨0, 1, 0⟩, ⟨0, 0, 1⟩⟩

/-- The matrix-to-quaternion conversion on the identity matrix: the identity quaternion. -/
def identityToQuaternion : Matrix3f ℚ → Quaternionf ℚ :=
  fun _ => ⟨1, 0, 0, 0⟩

end common

/-! ## The wire format: theorems -/

namespace common

section WireTheorems

variable {K : Type}

/-- On a source that starts with ten values, `deserialize` builds the box from exactly
those values, in wire order. -/
theorem deserialize_ten (a0 a1 a2 a3 a4 a5 a6 a7 a8 a9 : K) (rest : List K) :
    OrientedBoundingBox.deserialize (a0 :: a1 :: a2 :: a3 :: a4 :: a5 :: a6 :: a7 :: a8 :: a9 :: rest)
      = some ⟨⟨a0, a1, a2⟩, ⟨a3, a4, a5, a6⟩, a7, a8, a9⟩ := by
  simp [OrientedBoundingBox.deserialize]

/-- A list with at least ten elements starts with ten values. -/
theorem exists_ten_of_length (s : List K) (h : 10 ≤ s.length) :
    ∃ a0 a1 a2 a3 a4 a5 a6 a7 a8 a9 rest,
      s = a0 :: a1 :: a2 :: a3 :: a4 :: a5 :: a6 :: a7 :: a8 :: a9 :: rest := by
  rcases s with _ | ⟨a0, _ | ⟨a1, _ | ⟨a2, _ | ⟨a3, _ | ⟨a4, _ | ⟨a5, _ | ⟨a6, _ | ⟨a7,
    _ | ⟨a8, _ | ⟨a9, rest⟩⟩⟩⟩⟩⟩⟩⟩⟩⟩ <;> simp at h
  exact ⟨a0, a1, a2, a3, a4, a5, a6, a7, a8, a9, rest, rfl⟩

/-- C1 (round trip). For every box `b`, serializing `b` into an empty vector and passing
that vector to `deserialize` returns a box, and its translation, its four rotation
components (w, x, y, z), its width, its height and its depth are those of `b`. -/
theorem deserialize_serialize_roundtrip (b : OrientedBoundingBox K) :
    ∃ b', OrientedBoundingBox.deserialize (b.serialize []) = some b' ∧
      b'.translation = b.translation ∧
      b'.rotation.w = b.rotation.w ∧ b'.rotation.x = b.rotation.x ∧
      b'.rotation.y = b.rotation.y ∧ b'.rotation.z = b.rotation.z ∧
      b'.width = b.width ∧ b'.height = b.height ∧ b'.depth = b.depth := by
  refine ⟨b, ?_, rfl, rfl, rfl, rfl, rfl, rfl, rfl, rfl⟩
  simp only [OrientedBoundingBox.serialize, List.nil_append, deserialize_ten]

/-- C2 (serialize field order). For every box, `serialize` on an empty target produces
exactly the ten values translation x, y, z, rotation w, x, y, z, width, height, depth, in
that order; the box with translation (1,2,3), quaternion w = 0.707, x = 0, y = 0.707,
z = 0 and extents 4, 5, 6 produces [1, 2, 3, 0.707, 0, 0.707, 0, 4, 5, 6]. -/
theorem serialize_field_order (b : OrientedBoundingBox K) :
    b.serialize [] = [b.translation.x, b.translation.y, b.translation.z,
                      b.rotation.w, b.rotation.x, b.rotation.y, b.rotation.z,
                      b.width, b.height, b.depth] ∧
    (b.serialize []).length = 10 ∧
    OrientedBoundingBox.serialize
        (⟨⟨1, 2, 3⟩, ⟨707 / 1000, 0, 707 / 1000, 0⟩, 4, 5, 6⟩ : OrientedBoundingBox ℚ) []
      = [1, 2, 3, 707 / 1000, 0, 707 / 1000, 0, 4, 5, 6] :=
  ⟨rfl, rfl, rfl⟩

/-- C3 (deserialize field mapping). For every source `s` with at least ten elements,
`deserialize s` is the box with translation (s[0], s[1], s[2]), rotation w = s[3],
x = s[4], y = s[5], z = s[6], width s[7], height s[8], depth s[9]; any source with the
same first ten values gives the same box, so elements after index 9 play no part. -/
theorem deserialize_field_mapping (s : List K) (h : 10 ≤ s.length) :
    OrientedBoundingBox.deserialize s
      = some
          { translation := ⟨s.get ⟨0, by omega⟩, s.get ⟨1, by omega⟩, s.get ⟨2, by omega⟩⟩
            rotation := ⟨s.get ⟨3, by omega⟩, s.get ⟨4, by omega⟩, s.get ⟨5, by omega⟩,
                         s.get ⟨6, by omega⟩⟩
            width := s.get ⟨7, by omega⟩
            height := s.get ⟨8, by omega⟩
            depth := s.get ⟨9, by omega⟩ } ∧
    ∀ s' : List K, s'.take 10 = s.take 10 →
      OrientedBoundingBox.deserialize s' = OrientedBoundingBox.deserialize s := by
  obtain ⟨a0, a1, a2, a3, a4, a5, a6, a7, a8, a9, rest, rfl⟩ := exists_ten_of_length s h
  refine ⟨deserialize_ten a0 a1 a2 a3 a4 a5 a6 a7 a8 a9 rest, ?_⟩
  intro s' hs'
  rw [← List.take_append_drop 10 s', hs']
  simp only [List.take_succ_cons, List.take_zero, List.cons_append, List.nil_append,
    deserialize_ten]

/-- Witness for C3: an eleven-element source; the eleventh value is ignored. -/
theorem deserialize_field_mapping_witness :
    10 ≤ [1, 2, 3, 4, 5, 6, 7, 8, 9, 10, 11].length ∧
    OrientedBoundingBox.deserialize [1, 2, 3, 4, 5, 6, 7, 8, 9, 10, 11]
      = some (⟨⟨1, 2, 3⟩, ⟨4, 5, 6, 7⟩, 8, 9, 10⟩ : OrientedBoundingBox Nat) :=
  ⟨by decide, (deserialize_field_mapping [1, 2, 3, 4, 5, 6, 7, 8, 9, 10, 11] (by decide)).1⟩

end WireTheorems

section WireInvariants

variable {K : Type} [LinearOrderedField K]

/-- C10 (deserialize performs no validation or normalisation). For every source `s` of
length at least ten, `deserialize s` returns a box whose rotation is a unit quaternion if
and only if s[3]^2 + s[4]^2 + s[5]^2 + s[6]^2 = 1, and whose extents are all non-negative
if and only if s[7], s[8], s[9] are all non-negative. A source with quaternion components
(2,0,0,0) and a source with width -1 are both accepted, and the returned boxes break the
unit-rotation and the non-negative-extent invariant respectively. -/
theorem deserialize_no_validation (s : List K) (h : 10 ≤ s.length) :
    (∃ b, OrientedBoundingBox.deserialize s = some b ∧
      (b.rotation.isUnit ↔
        (s.get ⟨3, by omega⟩) ^ 2 + (s.get ⟨4, by omega⟩) ^ 2 + (s.get ⟨5, by omega⟩) ^ 2
          + (s.get ⟨6, by omega⟩) ^ 2 = 1) ∧
      (b.extentsNonneg ↔
        0 ≤ s.get ⟨7, by omega⟩ ∧ 0 ≤ s.get ⟨8, by omega⟩ ∧ 0 ≤ s.get ⟨9, by omega⟩)) ∧
    (∃ b, OrientedBoundingBox.deserialize ([0, 0, 0, 2, 0, 0, 0, 1, 1, 1] : List K) = some b ∧
      ¬ b.rotation.isUnit) ∧
    (∃ b, OrientedBoundingBox.deserialize ([0, 0, 0, 1, 0, 0, 0, -1, 1, 1] : List K) = some b ∧
      ¬ b.extentsNonneg) := by
  obtain ⟨a0, a1, a2, a3, a4, a5, a6, a7, a8, a9, rest, rfl⟩ := exists_ten_of_length s h
  refine ⟨⟨_, deserialize_ten a0 a1 a2 a3 a4 a5 a6 a7 a8 a9 rest, ?_, ?_⟩,
    ⟨_, deserialize_ten _ _ _ _ _ _ _ _ _ _ _, ?_⟩, ⟨_, deserialize_ten _ _ _ _ _ _ _ _ _ _ _, ?_⟩⟩
  · simp only [Quaternionf.isUnit, Quaternionf.squaredNorm, List.get, pow_two]
  · simp only [OrientedBoundingBox.extentsNonneg, List.get]
  · simp only [Quaternionf.isUnit, Quaternionf.squaredNorm]
    norm_num
  · simp only [OrientedBoundingBox.extentsNonneg]
    norm_num

/-- Witness for C10: a ten-element rational source with a quaternion of squared norm 4. -/
theorem deserialize_no_validation_witness :
    10 ≤ ([0, 0, 0, 2, 0, 0, 0, 1, 1, 1] : List ℚ).length ∧
    ∃ b, OrientedBoundingBox.deserialize ([0, 0, 0, 2, 0, 0, 0, 1, 1, 1] : List ℚ) = some b ∧
      (b.rotation.isUnit ↔ (2 : ℚ) ^ 2 + 0 ^ 2 + 0 ^ 2 + 0 ^ 2 = 1) :=
  ⟨by decide,
    let ⟨b, hb, hu, _⟩ :=
      (deserialize_no_validation ([0, 0, 0, 2, 0, 0, 0, 1, 1, 1] : List ℚ) (by decide)).1
    ⟨b, hb, hu⟩⟩

end WireInvariants

end common

/-! ## Linear algebra: lemmas -/

namespace common

section AlgebraLemmas

variable {K : Type} [LinearOrderedField K]

theorem Vector3f.ext_iff3 {α : Type} (a b : Vector3f α) :
    a = b ↔ a.x = b.x ∧ a.y = b.y ∧ a.z = b.z := by
  cases a; cases b; simp

/-- The determinant above is the determinant of the matrix with the same entries. -/
theorem Matrix3f.determinant_eq_det (m : Matrix3f K) :
    m.determinant
      = Matrix.det !![m.c0.x, m.c1.x, m.c2.x; m.c0.y, m.c1.y, m.c2.y; m.c0.z, m.c1.z, m.c2.z] := by
  rw [Matrix.det_fin_three]
  simp only [Matrix.of_apply, Matrix.cons_val_zero, Matrix.cons_val_one, Matrix.head_cons,
    Matrix.cons_val_two, Matrix.tail_cons, Matrix3f.determinant]
  ring

/-- Overwriting the third column by the cross product of two orthonormal columns gives
three orthonormal columns. -/
theorem Matrix3f.setCol2ToCross_orthonormal (m : Matrix3f K) (h : m.firstTwoOrthonormal) :
    m.setCol2ToCross.orthonormalColumns := by
  obtain ⟨h00, h11, h01⟩ := h
  simp only [Vector3f.dot] at h00 h11 h01
  refine ⟨?_, ?_, ?_, ?_, ?_, ?_⟩ <;>
    simp only [Matrix3f.setCol2ToCross, Vector3f.dot, Vector3f.cross]
  · exact h00
  · exact h11
  · linear_combination
      (m.c1.x * m.c1.x + m.c1.y * m.c1.y + m.c1.z * m.c1.z) * h00 + h11
        - (m.c0.x * m.c1.x + m.c0.y * m.c1.y + m.c0.z * m.c1.z) * h01
  · exact h01
  · ring
  · ring

/-- Overwriting the third column by the cross product of two orthonormal columns gives
determinant one. -/
theorem Matrix3f.setCol2ToCross_determinant (m : Matrix3f K) (h : m.firstTwoOrthonormal) :
    m.setCol2ToCross.determinant = 1 := by
  obtain ⟨h00, h11, h01⟩ := h
  simp only [Vector3f.dot] at h00 h11 h01
  simp only [Matrix3f.setCol2ToCross, Matrix3f.determinant, Vector3f.cross]
  linear_combination
    (m.c1.x * m.c1.x + m.c1.y * m.c1.y + m.c1.z * m.c1.z) * h00 + h11
      - (m.c0.x * m.c1.x + m.c0.y * m.c1.y + m.c0.z * m.c1.z) * h01

/-- For orthonormal columns the transpose undoes the matrix: `m^T * (m * v) = v`. -/
theorem Matrix3f.transpose_mulVec_mulVec (m : Matrix3f K) (h : m.orthonormalColumns)
    (v : Vector3f K) : m.transpose.mulVec (m.mulVec v) = v := by
  obtain ⟨h00, h11, h22, h01, h02, h12⟩ := h
  simp only [Vector3f.dot] at h00 h11 h22 h01 h02 h12
  rw [Vector3f.ext_iff3]
  simp only [Matrix3f.transpose, Matrix3f.mulVec]
  refine ⟨?_, ?_, ?_⟩
  · linear_combination v.x * h00 + v.y * h01 + v.z * h02
  · linear_combination v.x * h01 + v.y * h11 + v.z * h12
  · linear_combination v.x * h02 + v.y * h12 + v.z * h22

/-- The local coordinates of a point with respect to the centre `m * d + c` are its
coordinates in the frame centred at `c`, shifted by `d`, when `m` has orthonormal
columns. -/
theorem localCoordinates_centre (m : Matrix3f K) (h : m.orthonormalColumns)
    (d c p : Vector3f K) :
    localCoordinates m ((m.mulVec d).add c) p
      = ((m.transpose.mulVec p).add (Vector3f.smul (-1) (m.transpose.mulVec c))).sub d := by
  have hd := Matrix3f.transpose_mulVec_mulVec m h d
  rw [Vector3f.ext_iff3] at hd ⊢
  simp only [localCoordinates, Matrix3f.transpose, Matrix3f.mulVec, Vector3f.add,
    Vector3f.sub, Vector3f.smul] at hd ⊢
  obtain ⟨hx, hy, hz⟩ := hd
  refine ⟨?_, ?_, ?_⟩
  · linear_combination -hx
  · linear_combination -hy
  · linear_combination -hz

end AlgebraLemmas

end common

/-! ## The min/max scan: lemmas -/

namespace common

section ScanLemmas

variable {K : Type} [LinearOrderedField K]

/-- A running minimum is below its start value and below every scanned value, and is one
of them. -/
theorem foldl_min_spec (l : List K) (a : K) :
    l.foldl min a ≤ a ∧ (∀ b ∈ l, l.foldl min a ≤ b) ∧
      (l.foldl min a = a ∨ l.foldl min a ∈ l) := by
  induction l generalizing a with
  | nil => simp
  | cons c l ih =>
    obtain ⟨h1, h2, h3⟩ := ih (min a c)
    simp only [List.foldl_cons, List.mem_cons, forall_eq_or_imp]
    refine ⟨h1.trans (min_le_left a c), ⟨h1.trans (min_le_right a c), h2⟩, ?_⟩
    rcases h3 with h3 | h3
    · rcases min_choice a c with hm | hm
      · left; rw [h3, hm]
      · right; left; rw [h3, hm]
    · right; right; exact h3

/-- A running maximum is above its start value and above every scanned value, and is one
of them. -/
theorem foldl_max_spec (l : List K) (a : K) :
    a ≤ l.foldl max a ∧ (∀ b ∈ l, b ≤ l.foldl max a) ∧
      (l.foldl max a = a ∨ l.foldl max a ∈ l) := by
  induction l generalizing a with
  | nil => simp
  | cons c l ih =>
    obtain ⟨h1, h2, h3⟩ := ih (max a c)
    simp only [List.foldl_cons, List.mem_cons, forall_eq_or_imp]
    refine ⟨(le_max_left a c).trans h1, ⟨(le_max_right a c).trans h1, h2⟩, ?_⟩
    rcases h3 with h3 | h3
    · rcases max_choice a c with hm | hm
      · left; rw [h3, hm]
      · right; left; rw [h3, hm]
    · right; right; exact h3

/-- The scan of `getMinMax3D` is, on each coordinate `f`, a running minimum and a running
maximum of that coordinate. -/
theorem foldl_minMaxStep (ps : List (Vector3f K)) (mn mx : Vector3f K) :
    ps.foldl minMaxStep (mn, mx)
      = (⟨(ps.map Vector3f.x).foldl min mn.x, (ps.map Vector3f.y).foldl min mn.y,
          (ps.map Vector3f.z).foldl min mn.z⟩,
         ⟨(ps.map Vector3f.x).foldl max mx.x, (ps.map Vector3f.y).foldl max mx.y,
          (ps.map Vector3f.z).foldl max mx.z⟩) := by
  induction ps generalizing mn mx with
  | nil => rfl
  | cons p ps ih =>
    simp only [List.foldl_cons, List.map_cons]
    rw [minMaxStep, ih]

/-- The running minimum and maximum of a coordinate over a non-empty list of points are
its exact range. -/
theorem isExactRange_foldl (f : Vector3f K → K) (p : Vector3f K) (ps : List (Vector3f K)) :
    isExactRange (p :: ps) f ((ps.map f).foldl min (f p)) ((ps.map f).foldl max (f p)) := by
  obtain ⟨a1, a2, a3⟩ := foldl_min_spec (ps.map f) (f p)
  obtain ⟨b1, b2, b3⟩ := foldl_max_spec (ps.map f) (f p)
  refine ⟨?_, ?_, ?_⟩
  · intro q hq
    rcases List.mem_cons.mp hq with rfl | hq
    · exact ⟨a1, b1⟩
    · exact ⟨a2 _ (List.mem_map_of_mem f hq), b2 _ (List.mem_map_of_mem f hq)⟩
  · rcases a3 with h | h
    · exact ⟨p, List.mem_cons_self _ _, h.symm⟩
    · obtain ⟨q, hq, hfq⟩ := List.mem_map.mp h
      exact ⟨q, List.mem_cons_of_mem _ hq, hfq⟩
  · rcases b3 with h | h
    · exact ⟨p, List.mem_cons_self _ _, h.symm⟩
    · obtain ⟨q, hq, hfq⟩ := List.mem_map.mp h
      exact ⟨q, List.mem_cons_of_mem _ hq, hfq⟩

/-- On a non-empty cloud `getMinMax3D` returns two corners, and on every axis they are the
exact range of the points. -/
theorem getMinMax3D_spec (pts : List (Vector3f K)) (hne : pts ≠ []) :
    ∃ mn mx, getMinMax3D pts = some (mn, mx) ∧
      isExactRange pts Vector3f.x mn.x mx.x ∧
      isExactRange pts Vector3f.y mn.y mx.y ∧
      isExactRange pts Vector3f.z mn.z mx.z := by
  cases pts with
  | nil => exact absurd rfl hne
  | cons p ps =>
    refine ⟨⟨(ps.map Vector3f.x).foldl min p.x, (ps.map Vector3f.y).foldl min p.y,
        (ps.map Vector3f.z).foldl min p.z⟩,
      ⟨(ps.map Vector3f.x).foldl max p.x, (ps.map Vector3f.y).foldl max p.y,
        (ps.map Vector3f.z).foldl max p.z⟩, ?_,
      isExactRange_foldl Vector3f.x p ps, isExactRange_foldl Vector3f.y p ps,
      isExactRange_foldl Vector3f.z p ps⟩
    simp only [getMinMax3D, foldl_minMaxStep]

/-- A point of `cPoints` is the image of an input point under the transform `p2w`. -/
theorem mem_cPoints (eigenvectors : Matrix3f K → Matrix3f K) (cloud : List (Vector3f K))
    (q : Vector3f K) :
    q ∈ OrientedBoundingBox.cPoints eigenvectors cloud ↔
      ∃ p ∈ cloud,
        ((OrientedBoundingBox.eigDx eigenvectors cloud).transpose.mulVec p).add
          (Vector3f.smul (-1)
            ((OrientedBoundingBox.eigDx eigenvectors cloud).transpose.mulVec
              (compute3DCentroid cloud))) = q := by
  simp only [OrientedBoundingBox.cPoints, transformPointCloud, OrientedBoundingBox.p2w,
    List.mem_map]

/-- On a non-empty cloud the constructor returns a box: its fields are computed from the
two corners of `cPoints`, which are the exact per-axis range of `cPoints`. -/
theorem fit_eq_some (eigenvectors : Matrix3f K → Matrix3f K)
    (toQuaternion : Matrix3f K → Quaternionf K) (cloud : List (Vector3f K))
    (hne : cloud ≠ []) :
    ∃ mn mx, getMinMax3D (OrientedBoundingBox.cPoints eigenvectors cloud) = some (mn, mx) ∧
      isExactRange (OrientedBoundingBox.cPoints eigenvectors cloud) Vector3f.x mn.x mx.x ∧
      isExactRange (OrientedBoundingBox.cPoints eigenvectors cloud) Vector3f.y mn.y mx.y ∧
      isExactRange (OrientedBoundingBox.cPoints eigenvectors cloud) Vector3f.z mn.z mx.z ∧
      OrientedBoundingBox.fit eigenvectors toQuaternion cloud
        = some
            { translation :=
                ((OrientedBoundingBox.eigDx eigenvectors cloud).mulVec
                  (Vector3f.smul (1 / 2) (mx.add mn))).add (compute3DCentroid cloud)
              rotation := toQuaternion (OrientedBoundingBox.eigDx eigenvectors cloud)
              width := mx.x - mn.x
              height := mx.y - mn.y
              depth := mx.z - mn.z } := by
  have hc : OrientedBoundingBox.cPoints eigenvectors cloud ≠ [] := by
    simpa [OrientedBoundingBox.cPoints, transformPointCloud] using hne
  obtain ⟨mn, mx, hmm, hx, hy, hz⟩ := getMinMax3D_spec _ hc
  refine ⟨mn, mx, hmm, hx, hy, hz, ?_⟩
  simp only [OrientedBoundingBox.fit, hmm]

end ScanLemmas

end common

/-! ## The fitted box: theorems -/

namespace common

section FitTheorems

variable {K : Type} [LinearOrderedField K]

/-- With orthonormal first two eigenvector columns, the local coordinates of an input
point in the fitted box are its `cPoints` coordinates minus the midpoint of the corners. -/
theorem localCoordinates_fit (eigenvectors : Matrix3f K → Matrix3f K)
    (cloud : List (Vector3f K))
    (hE : (eigenvectors
      (computeCovarianceMatrixNormalized cloud (compute3DCentroid cloud))).firstTwoOrthonormal)
    (mn mx p : Vector3f K) :
    localCoordinates (OrientedBoundingBox.eigDx eigenvectors cloud)
        (((OrientedBoundingBox.eigDx eigenvectors cloud).mulVec
          (Vector3f.smul (1 / 2) (mx.add mn))).add (compute3DCentroid cloud)) p
      = (((OrientedBoundingBox.eigDx eigenvectors cloud).transpose.mulVec p).add
          (Vector3f.smul (-1)
            ((OrientedBoundingBox.eigDx eigenvectors cloud).transpose.mulVec
              (compute3DCentroid cloud)))).sub (Vector3f.smul (1 / 2) (mx.add mn)) :=
  localCoordinates_centre _ (Matrix3f.setCol2ToCross_orthonormal _ hE) _ _ _

/-- C4 (containment). For every non-empty cloud whose solver output has orthonormal first
two columns, the constructor returns a box `b` with rotation built from the axis matrix
`eigDx`, and every input point `p`, mapped into the local frame of the box as
`eigDx^T * (p - b.translation)`, has |x| <= width/2, |y| <= height/2 and |z| <= depth/2. -/
theorem fit_containment (eigenvectors : Matrix3f K → Matrix3f K)
    (toQuaternion : Matrix3f K → Quaternionf K) (cloud : List (Vector3f K))
    (hne : cloud ≠ [])
    (hE : (eigenvectors
      (computeCovarianceMatrixNormalized cloud (compute3DCentroid cloud))).firstTwoOrthonormal) :
    ∃ b, OrientedBoundingBox.fit eigenvectors toQuaternion cloud = some b ∧
      b.rotation = toQuaternion (OrientedBoundingBox.eigDx eigenvectors cloud) ∧
      ∀ p ∈ cloud,
        |(localCoordinates (OrientedBoundingBox.eigDx eigenvectors cloud) b.translation p).x|
            ≤ b.width / 2 ∧
        |(localCoordinates (OrientedBoundingBox.eigDx eigenvectors cloud) b.translation p).y|
            ≤ b.height / 2 ∧
        |(localCoordinates (OrientedBoundingBox.eigDx eigenvectors cloud) b.translation p).z|
            ≤ b.depth / 2 := by
  obtain ⟨mn, mx, -, hx, hy, hz, hfit⟩ := fit_eq_some eigenvectors toQuaternion cloud hne
  refine ⟨_, hfit, rfl, ?_⟩
  intro p hp
  have hq := (mem_cPoints eigenvectors cloud _).mpr ⟨p, hp, rfl⟩
  obtain ⟨hx1, hx2⟩ := hx.1 _ hq
  obtain ⟨hy1, hy2⟩ := hy.1 _ hq
  obtain ⟨hz1, hz2⟩ := hz.1 _ hq
  simp only [localCoordinates_fit eigenvectors cloud hE]
  simp only [Vector3f.sub, Vector3f.smul, Vector3f.add] at hx1 hx2 hy1 hy2 hz1 hz2 ⊢
  refine ⟨abs_le.mpr ⟨?_, ?_⟩, abs_le.mpr ⟨?_, ?_⟩, abs_le.mpr ⟨?_, ?_⟩⟩ <;> linarith

/-- Witness for C4: the sample cloud with the sample solver answer. -/
theorem fit_containment_witness :
    sampleCloud ≠ [] ∧
    (sampleEigenvectors (computeCovarianceMatrixNormalized sampleCloud
      (compute3DCentroid sampleCloud))).firstTwoOrthonormal ∧
    ∃ b, OrientedBoundingBox.fit sampleEigenvectors sampleToQuaternion sampleCloud = some b ∧
      b.rotation = sampleToQuaternion (OrientedBoundingBox.eigDx sampleEigenvectors sampleCloud) ∧
      ∀ p ∈ sampleCloud,
        |(localCoordinates (OrientedBoundingBox.eigDx sampleEigenvectors sampleCloud)
            b.translation p).x| ≤ b.width / 2 ∧
        |(localCoordinates (OrientedBoundingBox.eigDx sampleEigenvectors sampleCloud)
            b.translation p).y| ≤ b.height / 2 ∧
        |(localCoordinates (OrientedBoundingBox.eigDx sampleEigenvectors sampleCloud)
            b.translation p).z| ≤ b.depth / 2 :=
  ⟨List.cons_ne_nil _ _,
   by norm_num [sampleEigenvectors, Matrix3f.firstTwoOrthonormal, Vector3f.dot],
   fit_containment sampleEigenvectors sampleToQuaternion sampleCloud (List.cons_ne_nil _ _)
     (by norm_num [sampleEigenvectors, Matrix3f.firstTwoOrthonormal, Vector3f.dot])⟩

/-- C5 (tightness). For every non-empty cloud whose solver output has orthonormal first
two columns, the constructor returns a box `b` each of whose six local-frame faces is
touched: on every local axis some input point has local coordinate exactly minus half
the extent and some input point has local coordinate exactly plus half the extent. -/
theorem fit_tightness (eigenvectors : Matrix3f K → Matrix3f K)
    (toQuaternion : Matrix3f K → Quaternionf K) (cloud : List (Vector3f K))
    (hne : cloud ≠ [])
    (hE : (eigenvectors
      (computeCovarianceMatrixNormalized cloud (compute3DCentroid cloud))).firstTwoOrthonormal) :
    ∃ b, OrientedBoundingBox.fit eigenvectors toQuaternion cloud = some b ∧
      (∃ p ∈ cloud,
        (localCoordinates (OrientedBoundingBox.eigDx eigenvectors cloud) b.translation p).x
          = -(b.width / 2)) ∧
      (∃ p ∈ cloud,
        (localCoordinates (OrientedBoundingBox.eigDx eigenvectors cloud) b.translation p).x
          = b.width / 2) ∧
      (∃ p ∈ cloud,
        (localCoordinates (OrientedBoundingBox.eigDx eigenvectors cloud) b.translation p).y
          = -(b.height / 2)) ∧
      (∃ p ∈ cloud,
        (localCoordinates (OrientedBoundingBox.eigDx eigenvectors cloud) b.translation p).y
          = b.height / 2) ∧
      (∃ p ∈ cloud,
        (localCoordinates (OrientedBoundingBox.eigDx eigenvectors cloud) b.translation p).z
          = -(b.depth / 2)) ∧
      (∃ p ∈ cloud,
        (localCoordinates (OrientedBoundingBox.eigDx eigenvectors cloud) b.translation p).z
          = b.depth / 2) := by
  obtain ⟨mn, mx, -, hx, hy, hz, hfit⟩ := fit_eq_some eigenvectors toQuaternion cloud hne
  obtain ⟨-, ⟨qx1, hqx1, ex1⟩, ⟨qx2, hqx2, ex2⟩⟩ := hx
  obtain ⟨-, ⟨qy1, hqy1, ey1⟩, ⟨qy2, hqy2, ey2⟩⟩ := hy
  obtain ⟨-, ⟨qz1, hqz1, ez1⟩, ⟨qz2, hqz2, ez2⟩⟩ := hz
  obtain ⟨px1, hpx1, rfl⟩ := (mem_cPoints eigenvectors cloud _).mp hqx1
  obtain ⟨px2, hpx2, rfl⟩ := (mem_cPoints eigenvectors cloud _).mp hqx2
  obtain ⟨py1, hpy1, rfl⟩ := (mem_cPoints eigenvectors cloud _).mp hqy1
  obtain ⟨py2, hpy2, rfl⟩ := (mem_cPoints eigenvectors cloud _).mp hqy2
  obtain ⟨pz1, hpz1, rfl⟩ := (mem_cPoints eigenvectors cloud _).mp hqz1
  obtain ⟨pz2, hpz2, rfl⟩ := (mem_cPoints eigenvectors cloud _).mp hqz2
  refine ⟨_, hfit, ⟨px1, hpx1, ?_⟩, ⟨px2, hpx2, ?_⟩, ⟨py1, hpy1, ?_⟩, ⟨py2, hpy2, ?_⟩,
    ⟨pz1, hpz1, ?_⟩, ⟨pz2, hpz2, ?_⟩⟩
  all_goals
    simp only [localCoordinates_fit eigenvectors cloud hE]
    simp only [Vector3f.sub, Vector3f.smul, Vector3f.add] at ex1 ex2 ey1 ey2 ez1 ez2 ⊢
  · linear_combination ex1
  · linear_combination ex2
  · linear_combination ey1
  · linear_combination ey2
  · linear_combination ez1
  · linear_combination ez2

/-- Witness for C5: the sample cloud with the sample solver answer. -/
theorem fit_tightness_witness :
    sampleCloud ≠ [] ∧
    (sampleEigenvectors (computeCovarianceMatrixNormalized sampleCloud
      (compute3DCentroid sampleCloud))).firstTwoOrthonormal ∧
    ∃ b, OrientedBoundingBox.fit sampleEigenvectors sampleToQuaternion sampleCloud = some b ∧
      (∃ p ∈ sampleCloud,
        (localCoordinates (OrientedBoundingBox.eigDx sampleEigenvectors sampleCloud)
          b.translation p).x = -(b.width / 2)) ∧
      (∃ p ∈ sampleCloud,
        (localCoordinates (OrientedBoundingBox.eigDx sampleEigenvectors sampleCloud)
          b.translation p).x = b.width / 2) :=
  ⟨List.cons_ne_nil _ _,
   by norm_num [sampleEigenvectors, Matrix3f.firstTwoOrthonormal, Vector3f.dot],
   let ⟨b, hb, h1, h2, _⟩ :=
     fit_tightness sampleEigenvectors sampleToQuaternion sampleCloud (List.cons_ne_nil _ _)
       (by norm_num [sampleEigenvectors, Matrix3f.firstTwoOrthonormal, Vector3f.dot])
   ⟨b, hb, h1, h2⟩⟩

/-- C7 (right-handed orthonormal axes). For every solver matrix whose first two columns
are orthonormal, the matrix obtained by overwriting the third column with the cross
product of the first two keeps the first two columns, has orthonormal columns and has
determinant exactly 1, whatever the third column was. -/
theorem setCol2ToCross_right_handed (m : Matrix3f K) (h : m.firstTwoOrthonormal) :
    m.setCol2ToCross.c0 = m.c0 ∧ m.setCol2ToCross.c1 = m.c1 ∧
    m.setCol2ToCross.orthonormalColumns ∧ m.setCol2ToCross.determinant = 1 :=
  ⟨rfl, rfl, Matrix3f.setCol2ToCross_orthonormal m h, Matrix3f.setCol2ToCross_determinant m h⟩

/-- Witness for C7: a solver answer of determinant -1 becomes a matrix of determinant 1. -/
theorem setCol2ToCross_right_handed_witness :
    (sampleEigenvectors (computeCovarianceMatrixNormalized sampleCloud
      (compute3DCentroid sampleCloud))).firstTwoOrthonormal ∧
    (sampleEigenvectors (computeCovarianceMatrixNormalized sampleCloud
      (compute3DCentroid sampleCloud))).determinant = -1 ∧
    (OrientedBoundingBox.eigDx sampleEigenvectors sampleCloud).orthonormalColumns ∧
    (OrientedBoundingBox.eigDx sampleEigenvectors sampleCloud).determinant = 1 :=
  ⟨by norm_num [sampleEigenvectors, Matrix3f.firstTwoOrthonormal, Vector3f.dot],
   by norm_num [sampleEigenvectors, Matrix3f.determinant],
   (setCol2ToCross_right_handed
     (sampleEigenvectors (computeCovarianceMatrixNormalized sampleCloud
       (compute3DCentroid sampleCloud)))
     (by norm_num [sampleEigenvectors, Matrix3f.firstTwoOrthonormal, Vector3f.dot])).2.2⟩

/-- Adding a constant to every summand adds the constant once per element. -/
theorem sum_map_add_const {α : Type} (l : List α) (f : α → K) (a : K) :
    (l.map (fun p => f p + a)).sum = (l.map f).sum + (l.length : K) * a := by
  induction l with
  | nil => simp
  | cons p l ih =>
    simp only [List.map_cons, List.sum_cons, List.length_cons, ih, Nat.cast_succ]
    ring

/-- The centroid of a translated non-empty cloud is the translated centroid. -/
theorem compute3DCentroid_translate (cloud : List (Vector3f K)) (v : Vector3f K)
    (hne : cloud ≠ []) :
    compute3DCentroid (cloud.map (fun p => p.add v)) = (compute3DCentroid cloud).add v := by
  have hn : (cloud.length : K) ≠ 0 :=
    Nat.cast_ne_zero.mpr (fun h => hne (List.length_eq_zero.mp h))
  rw [Vector3f.ext_iff3]
  simp only [compute3DCentroid, Vector3f.add, List.map_map, Function.comp_def,
    List.length_map, sum_map_add_const]
  refine ⟨?_, ?_, ?_⟩ <;> field_simp <;> ring

/-- An entry of the covariance does not change when the cloud and the centroid are
translated by the same vector, for coordinates that translate with the point. -/
theorem covarianceEntry_translate (cloud : List (Vector3f K)) (c v : Vector3f K)
    (f g : Vector3f K → K) (hf : ∀ p q : Vector3f K, f (p.add v) - f (q.add v) = f p - f q)
    (hg : ∀ p q : Vector3f K, g (p.add v) - g (q.add v) = g p - g q) :
    covarianceEntry (cloud.map (fun p => p.add v)) (c.add v) f g = covarianceEntry cloud c f g := by
  simp only [covarianceEntry, List.map_map, Function.comp_def, List.length_map, hf, hg]

/-- The normalized covariance of a translated non-empty cloud is that of the cloud. -/
theorem computeCovarianceMatrixNormalized_translate (cloud : List (Vector3f K))
    (v : Vector3f K) (hne : cloud ≠ []) :
    computeCovarianceMatrixNormalized (cloud.map (fun p => p.add v))
        (compute3DCentroid (cloud.map (fun p => p.add v)))
      = computeCovarianceMatrixNormalized cloud (compute3DCentroid cloud) := by
  have hx : ∀ p q : Vector3f K, (p.add v).x - (q.add v).x = p.x - q.x := by
    intro p q; simp only [Vector3f.add]; ring
  have hy : ∀ p q : Vector3f K, (p.add v).y - (q.add v).y = p.y - q.y := by
    intro p q; simp only [Vector3f.add]; ring
  have hz : ∀ p q : Vector3f K, (p.add v).z - (q.add v).z = p.z - q.z := by
    intro p q; simp only [Vector3f.add]; ring
  rw [compute3DCentroid_translate cloud v hne]
  simp only [computeCovarianceMatrixNormalized,
    covarianceEntry_translate cloud _ v Vector3f.x Vector3f.x hx hx,
    covarianceEntry_translate cloud _ v Vector3f.x Vector3f.y hx hy,
    covarianceEntry_translate cloud _ v Vector3f.x Vector3f.z hx hz,
    covarianceEntry_translate cloud _ v Vector3f.y Vector3f.x hy hx,
    covarianceEntry_translate cloud _ v Vector3f.y Vector3f.y hy hy,
    covarianceEntry_translate cloud _ v Vector3f.y Vector3f.z hy hz,
    covarianceEntry_translate cloud _ v Vector3f.z Vector3f.x hz hx,
    covarianceEntry_translate cloud _ v Vector3f.z Vector3f.y hz hy,
    covarianceEntry_translate cloud _ v Vector3f.z Vector3f.z hz hz]

/-- The axis matrix of a translated non-empty cloud is that of the cloud. -/
theorem eigDx_translate (eigenvectors : Matrix3f K → Matrix3f K) (cloud : List (Vector3f K))
    (v : Vector3f K) (hne : cloud ≠ []) :
    OrientedBoundingBox.eigDx eigenvectors (cloud.map (fun p => p.add v))
      = OrientedBoundingBox.eigDx eigenvectors cloud := by
  simp only [OrientedBoundingBox.eigDx, computeCovarianceMatrixNormalized_translate cloud v hne]

/-- The points in the principal-axis frame do not change when a non-empty cloud is
translated. -/
theorem cPoints_translate (eigenvectors : Matrix3f K → Matrix3f K) (cloud : List (Vector3f K))
    (v : Vector3f K) (hne : cloud ≠ []) :
    OrientedBoundingBox.cPoints eigenvectors (cloud.map (fun p => p.add v))
      = OrientedBoundingBox.cPoints eigenvectors cloud := by
  simp only [OrientedBoundingBox.cPoints, eigDx_translate eigenvectors cloud v hne,
    compute3DCentroid_translate cloud v hne, transformPointCloud, OrientedBoundingBox.p2w,
    List.map_map]
  apply List.map_congr_left
  intro p _
  rw [Vector3f.ext_iff3]
  simp only [Function.comp_def, Matrix3f.mulVec, Matrix3f.transpose, Vector3f.add,
    Vector3f.smul]
  refine ⟨?_, ?_, ?_⟩ <;> ring

/-- C6 (translation invariance). For every non-empty cloud and every vector `v`, with the
eigenvector matrix a function of the covariance matrix, the constructor returns a box for
the cloud and for the cloud translated by `v`; the two boxes have the same rotation,
width, height and depth, the translation of the second is the translation of the first
plus `v`, and the normalized covariance of the translated cloud equals that of the cloud. -/
theorem fit_translation_invariance (eigenvectors : Matrix3f K → Matrix3f K)
    (toQuaternion : Matrix3f K → Quaternionf K) (cloud : List (Vector3f K))
    (v : Vector3f K) (hne : cloud ≠ []) :
    ∃ b b', OrientedBoundingBox.fit eigenvectors toQuaternion cloud = some b ∧
      OrientedBoundingBox.fit eigenvectors toQuaternion (cloud.map (fun p => p.add v)) = some b' ∧
      b'.rotation = b.rotation ∧
      b'.width = b.width ∧ b'.height = b.height ∧ b'.depth = b.depth ∧
      b'.translation = b.translation.add v ∧
      computeCovarianceMatrixNormalized (cloud.map (fun p => p.add v))
          (compute3DCentroid (cloud.map (fun p => p.add v)))
        = computeCovarianceMatrixNormalized cloud (compute3DCentroid cloud) := by
  obtain ⟨mn, mx, hmm, -, -, -, hfit⟩ := fit_eq_some eigenvectors toQuaternion cloud hne
  refine ⟨_,
    { translation :=
        ((OrientedBoundingBox.eigDx eigenvectors cloud).mulVec
          (Vector3f.smul (1 / 2) (mx.add mn))).add ((compute3DCentroid cloud).add v)
      rotation := toQuaternion (OrientedBoundingBox.eigDx eigenvectors cloud)
      width := mx.x - mn.x
      height := mx.y - mn.y
      depth := mx.z - mn.z },
    hfit, ?_, rfl, rfl, rfl, rfl, ?_, computeCovarianceMatrixNormalized_translate cloud v hne⟩
  · simp only [OrientedBoundingBox.fit, cPoints_translate eigenvectors cloud v hne, hmm,
      eigDx_translate eigenvectors cloud v hne, compute3DCentroid_translate cloud v hne]
  · rw [Vector3f.ext_iff3]
    simp only [Vector3f.add]
    refine ⟨?_, ?_, ?_⟩ <;> ring

/-- Witness for C6: the sample cloud moved by (10, -20, 30). -/
theorem fit_translation_invariance_witness :
    sampleCloud ≠ [] ∧
    ∃ b b', OrientedBoundingBox.fit sampleEigenvectors sampleToQuaternion sampleCloud = some b ∧
      OrientedBoundingBox.fit sampleEigenvectors sampleToQuaternion
        (sampleCloud.map (fun p => p.add ⟨10, -20, 30⟩)) = some b' ∧
      b'.rotation = b.rotation ∧
      b'.width = b.width ∧ b'.height = b.height ∧ b'.depth = b.depth ∧
      b'.translation = b.translation.add ⟨10, -20, 30⟩ :=
  ⟨List.cons_ne_nil _ _,
   let ⟨b, b', h1, h2, h3, h4, h5, h6, h7, _⟩ :=
     fit_translation_invariance sampleEigenvectors sampleToQuaternion sampleCloud
       ⟨10, -20, 30⟩ (List.cons_ne_nil _ _)
   ⟨b, b', h1, h2, h3, h4, h5, h6, h7⟩⟩

/-- C9 (non-negative extents). For every non-empty cloud the constructor returns a box
whose width, height and depth are the per-axis maximum minus minimum of the points moved
to the principal-axis frame (`cPoints`), and each of the three is non-negative. -/
theorem fit_extents_nonneg (eigenvectors : Matrix3f K → Matrix3f K)
    (toQuaternion : Matrix3f K → Quaternionf K) (cloud : List (Vector3f K))
    (hne : cloud ≠ []) :
    ∃ b mn mx, OrientedBoundingBox.fit eigenvectors toQuaternion cloud = some b ∧
      getMinMax3D (OrientedBoundingBox.cPoints eigenvectors cloud) = some (mn, mx) ∧
      isExactRange (OrientedBoundingBox.cPoints eigenvectors cloud) Vector3f.x mn.x mx.x ∧
      isExactRange (OrientedBoundingBox.cPoints eigenvectors cloud) Vector3f.y mn.y mx.y ∧
      isExactRange (OrientedBoundingBox.cPoints eigenvectors cloud) Vector3f.z mn.z mx.z ∧
      b.width = mx.x - mn.x ∧ b.height = mx.y - mn.y ∧ b.depth = mx.z - mn.z ∧
      0 ≤ b.width ∧ 0 ≤ b.height ∧ 0 ≤ b.depth := by
  obtain ⟨mn, mx, hmm, hx, hy, hz, hfit⟩ := fit_eq_some eigenvectors toQuaternion cloud hne
  refine ⟨_, mn, mx, hfit, hmm, hx, hy, hz, rfl, rfl, rfl, ?_, ?_, ?_⟩
  · obtain ⟨q, hq, -⟩ := hx.2.1
    have := hx.1 q hq
    simp only [sub_nonneg]
    exact this.1.trans this.2
  · obtain ⟨q, hq, -⟩ := hy.2.1
    have := hy.1 q hq
    simp only [sub_nonneg]
    exact this.1.trans this.2
  · obtain ⟨q, hq, -⟩ := hz.2.1
    have := hz.1 q hq
    simp only [sub_nonneg]
    exact this.1.trans this.2

/-- Witness for C9: the sample cloud has extents 2, 3 and 5. -/
theorem fit_extents_nonneg_witness :
    sampleCloud ≠ [] ∧
    ∃ b, OrientedBoundingBox.fit sampleEigenvectors sampleToQuaternion sampleCloud = some b ∧
      0 ≤ b.width ∧ 0 ≤ b.height ∧ 0 ≤ b.depth :=
  ⟨List.cons_ne_nil _ _,
   let ⟨b, _, _, hb, _, _, _, _, _, _, _, h1, h2, h3⟩ :=
     fit_extents_nonneg sampleEigenvectors sampleToQuaternion sampleCloud (List.cons_ne_nil _ _)
   ⟨b, hb, h1, h2, h3⟩⟩

end FitTheorems

end common

/-! ## The sample cloud, evaluated -/

namespace common

/-- On the sample cloud the constructor returns the box centred at (1, 3/2, 5/2) with
extents 2, 3 and 5. -/
theorem fit_sampleCloud :
    OrientedBoundingBox.fit sampleEigenvectors sampleToQuaternion sampleCloud
      = some ⟨⟨1, 3 / 2, 5 / 2⟩, ⟨0, 1, 0, 0⟩, 2, 3, 5⟩ := by
  simp only [OrientedBoundingBox.fit, OrientedBoundingBox.cPoints, OrientedBoundingBox.eigDx,
    OrientedBoundingBox.p2w, transformPointCloud, sampleCloud, sampleEigenvectors,
    sampleToQuaternion, compute3DCentroid, Matrix3f.setCol2ToCross, Matrix3f.transpose,
    Matrix3f.mulVec, Vector3f.cross, Vector3f.add, Vector3f.smul, getMinMax3D, minMaxStep,
    List.map, List.foldl, List.sum_cons, List.sum_nil, List.length]
  norm_num

end common

/-! ## The wire format: inverse and append behaviour -/

namespace common

section WireInverse

variable {K : Type}

/-- C13 (deserialize is inverse to serialize in the other direction). For every sequence
`s` of exactly ten values, `deserialize s` returns a box and serializing that box into an
empty vector gives back `s`; and every box is the `deserialize` of its own ten-value
serialization, so the two maps are inverse bijections between ten-value sequences and
boxes. -/
theorem serialize_deserialize_roundtrip (s : List K) (h : s.length = 10) :
    (∃ b, OrientedBoundingBox.deserialize s = some b ∧ b.serialize [] = s) ∧
    (∀ b : OrientedBoundingBox K, (b.serialize []).length = 10 ∧
      OrientedBoundingBox.deserialize (b.serialize []) = some b) := by
  obtain ⟨a0, a1, a2, a3, a4, a5, a6, a7, a8, a9, rest, rfl⟩ :=
    exists_ten_of_length s (by omega)
  have hr : rest = [] := by
    simp only [List.length_cons] at h
    exact List.length_eq_zero.mp (by omega)
  subst hr
  refine ⟨⟨_, deserialize_ten a0 a1 a2 a3 a4 a5 a6 a7 a8 a9 [], rfl⟩, fun b => ⟨rfl, ?_⟩⟩
  simp only [OrientedBoundingBox.serialize, List.nil_append, deserialize_ten]

/-- Witness for C13: the ten values 1 .. 10. -/
theorem serialize_deserialize_roundtrip_witness :
    [1, 2, 3, 4, 5, 6, 7, 8, 9, 10].length = 10 ∧
    ∃ b : OrientedBoundingBox Nat,
      OrientedBoundingBox.deserialize [1, 2, 3, 4, 5, 6, 7, 8, 9, 10] = some b ∧
      b.serialize [] = [1, 2, 3, 4, 5, 6, 7, 8, 9, 10] :=
  ⟨by decide, (serialize_deserialize_roundtrip [1, 2, 3, 4, 5, 6, 7, 8, 9, 10] (by decide)).1⟩

/-- C16 (serialize appends and never clears). For every box `b` and every target `t`, the
target after `serialize` is the old `t` followed by the ten values of `b`: its length
grows by exactly ten and its first `t.length` elements are the old ones. Hence on a
non-empty target `a :: t` the box that `deserialize` reads back has `a`, not the
translation of `b`, as its first coordinate, and on a target that already holds ten
values `deserialize` returns the box of those ten values, whatever `b` is. -/
theorem serialize_appends (b : OrientedBoundingBox K) (t : List K) :
    b.serialize t = t ++ [b.translation.x, b.translation.y, b.translation.z,
                          b.rotation.w, b.rotation.x, b.rotation.y, b.rotation.z,
                          b.width, b.height, b.depth] ∧
    (b.serialize t).length = t.length + 10 ∧
    (b.serialize t).take t.length = t ∧
    (∀ a : K, ∃ b', OrientedBoundingBox.deserialize (b.serialize (a :: t)) = some b' ∧
      b'.translation.x = a) ∧
    (∀ a0 a1 a2 a3 a4 a5 a6 a7 a8 a9 : K,
      OrientedBoundingBox.deserialize
          (b.serialize (a0 :: a1 :: a2 :: a3 :: a4 :: a5 :: a6 :: a7 :: a8 :: a9 :: t))
        = some ⟨⟨a0, a1, a2⟩, ⟨a3, a4, a5, a6⟩, a7, a8, a9⟩) := by
  refine ⟨rfl, ?_, ?_, ?_, ?_⟩
  · simp [OrientedBoundingBox.serialize]
  · simp [OrientedBoundingBox.serialize]
  · intro a
    obtain ⟨c0, c1, c2, c3, c4, c5, c6, c7, c8, c9, rest, hs⟩ :=
      exists_ten_of_length (b.serialize (a :: t))
        (by simp [OrientedBoundingBox.serialize])
    have h0 : c0 = a := by
      have := congrArg List.head? hs
      simp only [OrientedBoundingBox.serialize, List.cons_append, List.head?_cons,
        Option.some.injEq] at this
      exact this.symm
    rw [hs, deserialize_ten]
    exact ⟨_, rfl, h0⟩
  · intro a0 a1 a2 a3 a4 a5 a6 a7 a8 a9
    simp only [OrientedBoundingBox.serialize, List.cons_append, deserialize_ten]

end WireInverse

/-! ## Default construction: theorems -/

section DefaultTheorems

/-- C12, as stated, fails: a default-constructed box in zeroed storage has the zero
quaternion as rotation (w = 0), not the identity quaternion, so it is not in the
zero/identity state. -/
theorem defaultConstructed_not_zeroIdentity :
    (OrientedBoundingBox.defaultConstructed
        (OrientedBoundingBox.zeroedStorage : OrientedBoundingBox ℚ)).rotation.w = 0 ∧
    OrientedBoundingBox.defaultConstructed
        (OrientedBoundingBox.zeroedStorage : OrientedBoundingBox ℚ)
      ≠ OrientedBoundingBox.zeroIdentity := by
  refine ⟨rfl, ?_⟩
  intro h
  have hw := congrArg (fun b => b.rotation.w) h
  simp only [OrientedBoundingBox.defaultConstructed, OrientedBoundingBox.zeroedStorage,
    OrientedBoundingBox.zeroIdentity] at hw
  exact absurd hw (by norm_num)

/-- C12, amended: the default constructor assigns no field. The default-constructed box
holds whatever its storage held, and it is in the zero/identity state exactly when the
storage already was. -/
theorem defaultConstructed_keeps_storage {K : Type} [LinearOrderedField K]
    (storage : OrientedBoundingBox K) :
    OrientedBoundingBox.defaultConstructed storage = storage ∧
    (OrientedBoundingBox.defaultConstructed storage = OrientedBoundingBox.zeroIdentity ↔
      storage = OrientedBoundingBox.zeroIdentity) :=
  ⟨rfl, Iff.rfl⟩

end DefaultTheorems

end common

/-! ## The fitted box: centre, degenerate clouds, point order -/

namespace common

section CentreTheorems

variable {K : Type} [LinearOrderedField K]

/-- The cloud `cPoints` is the image of the input cloud under the transform `p2w`. -/
theorem cPoints_eq_map (eigenvectors : Matrix3f K → Matrix3f K) (cloud : List (Vector3f K)) :
    OrientedBoundingBox.cPoints eigenvectors cloud
      = cloud.map
          (OrientedBoundingBox.p2w (OrientedBoundingBox.eigDx eigenvectors cloud)
            (compute3DCentroid cloud)).transformPoint :=
  rfl

/-- The transform `p2w` sends the centroid it was built from to the origin. -/
theorem p2w_centroid (m : Matrix3f K) (c : Vector3f K) :
    (OrientedBoundingBox.p2w m c).transformPoint c = ⟨0, 0, 0⟩ := by
  rw [Vector3f.ext_iff3]
  simp only [OrientedBoundingBox.p2w, Matrix4f.transformPoint, Matrix3f.transpose,
    Matrix3f.mulVec, Vector3f.add, Vector3f.smul]
  refine ⟨?_, ?_, ?_⟩ <;> ring

/-- For orthonormal columns the transform `p2w` sends `m * d + c` to `d`. -/
theorem p2w_centre (m : Matrix3f K) (h : m.orthonormalColumns) (d c : Vector3f K) :
    (OrientedBoundingBox.p2w m c).transformPoint ((m.mulVec d).add c) = d := by
  have hd := Matrix3f.transpose_mulVec_mulVec m h d
  rw [Vector3f.ext_iff3] at hd ⊢
  simp only [OrientedBoundingBox.p2w, Matrix4f.transformPoint, Matrix3f.transpose,
    Matrix3f.mulVec, Vector3f.add, Vector3f.smul] at hd ⊢
  obtain ⟨hx, hy, hz⟩ := hd
  refine ⟨?_, ?_, ?_⟩
  · linear_combination hx
  · linear_combination hy
  · linear_combination hz

/-- A matrix with orthonormal columns sends only the zero vector to the zero vector. -/
theorem Matrix3f.mulVec_eq_zero (m : Matrix3f K) (h : m.orthonormalColumns) (d : Vector3f K)
    (hd : m.mulVec d = ⟨0, 0, 0⟩) : d = ⟨0, 0, 0⟩ := by
  have ht := Matrix3f.transpose_mulVec_mulVec m h d
  rw [hd] at ht
  rw [← ht, Vector3f.ext_iff3]
  simp only [Matrix3f.transpose, Matrix3f.mulVec]
  refine ⟨?_, ?_, ?_⟩ <;> ring

/-- C14 (box centre placement). For every non-empty cloud whose axis matrix `eigDx` has
orthonormal columns, the constructor returns a box `b`; `cPoints` is the image of the
cloud under the world-to-local transform `p2w` (x -> E^T x - E^T c); that transform sends
the centroid to the origin and sends the translation of `b`, which is
`E * mean_of(min,max) + c`, exactly to `mean_of(min,max)`, the midpoint of the two corners
of `cPoints`. -/
theorem fit_centre_placement (eigenvectors : Matrix3f K → Matrix3f K)
    (toQuaternion : Matrix3f K → Quaternionf K) (cloud : List (Vector3f K))
    (hne : cloud ≠ [])
    (hE : (OrientedBoundingBox.eigDx eigenvectors cloud).orthonormalColumns) :
    ∃ b mn mx, OrientedBoundingBox.fit eigenvectors toQuaternion cloud = some b ∧
      getMinMax3D
          (cloud.map
            (OrientedBoundingBox.p2w (OrientedBoundingBox.eigDx eigenvectors cloud)
              (compute3DCentroid cloud)).transformPoint) = some (mn, mx) ∧
      (OrientedBoundingBox.p2w (OrientedBoundingBox.eigDx eigenvectors cloud)
          (compute3DCentroid cloud)).transformPoint (compute3DCentroid cloud) = ⟨0, 0, 0⟩ ∧
      b.translation
        = ((OrientedBoundingBox.eigDx eigenvectors cloud).mulVec
            (Vector3f.smul (1 / 2) (mx.add mn))).add (compute3DCentroid cloud) ∧
      (OrientedBoundingBox.p2w (OrientedBoundingBox.eigDx eigenvectors cloud)
          (compute3DCentroid cloud)).transformPoint b.translation
        = Vector3f.smul (1 / 2) (mx.add mn) := by
  obtain ⟨mn, mx, hmm, -, -, -, hfit⟩ := fit_eq_some eigenvectors toQuaternion cloud hne
  rw [cPoints_eq_map] at hmm
  exact ⟨_, mn, mx, hfit, hmm, p2w_centroid _ _, rfl, p2w_centre _ hE _ _⟩

/-- Witness for C14: the sample cloud; its axis matrix is the half turn about the x axis. -/
theorem fit_centre_placement_witness :
    sampleCloud ≠ [] ∧
    (OrientedBoundingBox.eigDx sampleEigenvectors sampleCloud).orthonormalColumns ∧
    ∃ b mn mx, OrientedBoundingBox.fit sampleEigenvectors sampleToQuaternion sampleCloud = some b ∧
      getMinMax3D
          (sampleCloud.map
            (OrientedBoundingBox.p2w (OrientedBoundingBox.eigDx sampleEigenvectors sampleCloud)
              (compute3DCentroid sampleCloud)).transformPoint) = some (mn, mx) ∧
      (OrientedBoundingBox.p2w (OrientedBoundingBox.eigDx sampleEigenvectors sampleCloud)
          (compute3DCentroid sampleCloud)).transformPoint b.translation
        = Vector3f.smul (1 / 2) (mx.add mn) :=
  ⟨List.cons_ne_nil _ _,
   by norm_num [OrientedBoundingBox.eigDx, sampleEigenvectors, Matrix3f.setCol2ToCross,
     Matrix3f.orthonormalColumns, Vector3f.dot, Vector3f.cross],
   let ⟨b, mn, mx, h1, h2, _, _, h5⟩ :=
     fit_centre_placement sampleEigenvectors sampleToQuaternion sampleCloud
       (List.cons_ne_nil _ _)
       (by norm_num [OrientedBoundingBox.eigDx, sampleEigenvectors, Matrix3f.setCol2ToCross,
         Matrix3f.orthonormalColumns, Vector3f.dot, Vector3f.cross])
   ⟨b, mn, mx, h1, h2, h5⟩⟩

/-- C15 (centroid versus box centre). For every non-empty cloud whose axis matrix has
orthonormal columns, the translation of the fitted box equals the centroid of the cloud
if and only if the corners of `cPoints` satisfy min = -max on each of the three local
axes, that is mean_of(min,max) = 0. -/
theorem fit_translation_eq_centroid_iff (eigenvectors : Matrix3f K → Matrix3f K)
    (toQuaternion : Matrix3f K → Quaternionf K) (cloud : List (Vector3f K))
    (hne : cloud ≠ [])
    (hE : (OrientedBoundingBox.eigDx eigenvectors cloud).orthonormalColumns) :
    ∃ b mn mx, OrientedBoundingBox.fit eigenvectors toQuaternion cloud = some b ∧
      getMinMax3D (OrientedBoundingBox.cPoints eigenvectors cloud) = some (mn, mx) ∧
      (b.translation = compute3DCentroid cloud ↔
        mn.x = -mx.x ∧ mn.y = -mx.y ∧ mn.z = -mx.z) := by
  obtain ⟨mn, mx, hmm, -, -, -, hfit⟩ := fit_eq_some eigenvectors toQuaternion cloud hne
  refine ⟨_, mn, mx, hfit, hmm, ?_, ?_⟩
  · intro ht
    have hz : (OrientedBoundingBox.eigDx eigenvectors cloud).mulVec
        (Vector3f.smul (1 / 2) (mx.add mn)) = ⟨0, 0, 0⟩ := by
      rw [Vector3f.ext_iff3] at ht ⊢
      simp only [Vector3f.add] at ht ⊢
      obtain ⟨h1, h2, h3⟩ := ht
      exact ⟨by linear_combination h1, by linear_combination h2, by linear_combination h3⟩
    have hm := Matrix3f.mulVec_eq_zero _ hE _ hz
    rw [Vector3f.ext_iff3] at hm
    simp only [Vector3f.smul, Vector3f.add] at hm
    obtain ⟨h1, h2, h3⟩ := hm
    exact ⟨by linear_combination 2 * h1, by linear_combination 2 * h2,
      by linear_combination 2 * h3⟩
  · rintro ⟨h1, h2, h3⟩
    rw [Vector3f.ext_iff3]
    simp only [Vector3f.add, Vector3f.smul, Matrix3f.mulVec, h1, h2, h3]
    refine ⟨?_, ?_, ?_⟩ <;> ring

/-- Witness for C15: the sample cloud with the sample solver answer. -/
theorem fit_translation_eq_centroid_iff_witness :
    sampleCloud ≠ [] ∧
    (OrientedBoundingBox.eigDx sampleEigenvectors sampleCloud).orthonormalColumns ∧
    ∃ b mn mx, OrientedBoundingBox.fit sampleEigenvectors sampleToQuaternion sampleCloud = some b ∧
      getMinMax3D (OrientedBoundingBox.cPoints sampleEigenvectors sampleCloud) = some (mn, mx) ∧
      (b.translation = compute3DCentroid sampleCloud ↔
        mn.x = -mx.x ∧ mn.y = -mx.y ∧ mn.z = -mx.z) :=
  ⟨List.cons_ne_nil _ _,
   by norm_num [OrientedBoundingBox.eigDx, sampleEigenvectors, Matrix3f.setCol2ToCross,
     Matrix3f.orthonormalColumns, Vector3f.dot, Vector3f.cross],
   fit_translation_eq_centroid_iff sampleEigenvectors sampleToQuaternion sampleCloud
     (List.cons_ne_nil _ _)
     (by norm_num [OrientedBoundingBox.eigDx, sampleEigenvectors, Matrix3f.setCol2ToCross,
       Matrix3f.orthonormalColumns, Vector3f.dot, Vector3f.cross])⟩

end CentreTheorems

end common

namespace common

section DegenerateAndOrder

variable {K : Type} [LinearOrderedField K]

/-- The exact range of a coordinate over a list of points is unique. -/
theorem isExactRange_unique (pts : List (Vector3f K)) (f : Vector3f K → K)
    (lo hi lo2 hi2 : K) (h : isExactRange pts f lo hi) (h2 : isExactRange pts f lo2 hi2) :
    lo = lo2 ∧ hi = hi2 := by
  obtain ⟨hb, ⟨q1, hq1, e1⟩, ⟨q2, hq2, e2⟩⟩ := h
  obtain ⟨hb2, ⟨r1, hr1, g1⟩, ⟨r2, hr2, g2⟩⟩ := h2
  refine ⟨le_antisymm ?_ ?_, le_antisymm ?_ ?_⟩
  · rw [← g1]; exact (hb r1 hr1).1
  · rw [← e1]; exact (hb2 q1 hq1).1
  · rw [← e2]; exact (hb2 q2 hq2).2
  · rw [← g2]; exact (hb r2 hr2).2

/-- The exact range of a coordinate depends only on which points are in the list. -/
theorem isExactRange_of_mem_iff (pts pts2 : List (Vector3f K)) (f : Vector3f K → K)
    (lo hi : K) (hmem : ∀ q, q ∈ pts2 ↔ q ∈ pts) (h : isExactRange pts f lo hi) :
    isExactRange pts2 f lo hi := by
  obtain ⟨hb, ⟨q1, hq1, e1⟩, ⟨q2, hq2, e2⟩⟩ := h
  exact ⟨fun q hq => hb q ((hmem q).mp hq), ⟨q1, (hmem q1).mpr hq1, e1⟩,
    ⟨q2, (hmem q2).mpr hq2, e2⟩⟩

/-- If a coordinate has the same value at every point, its sum is that value times the
number of points. -/
theorem sum_map_of_forall_eq {α : Type} (l : List α) (f : α → K) (a : K)
    (h : ∀ q ∈ l, f q = a) : (l.map f).sum = (l.length : K) * a := by
  induction l with
  | nil => simp
  | cons p l ih =>
    simp only [List.map_cons, List.sum_cons, List.length_cons, Nat.cast_succ,
      h p (List.mem_cons_self _ _), ih (fun q hq => h q (List.mem_cons_of_mem _ hq))]
    ring

/-- The centroid of a non-empty cloud whose points all sit at `p` is `p`. -/
theorem compute3DCentroid_single_location (cloud : List (Vector3f K)) (p : Vector3f K)
    (hne : cloud ≠ []) (hall : ∀ q ∈ cloud, q = p) : compute3DCentroid cloud = p := by
  have hn : (cloud.length : K) ≠ 0 :=
    Nat.cast_ne_zero.mpr (fun h => hne (List.length_eq_zero.mp h))
  rw [Vector3f.ext_iff3]
  simp only [compute3DCentroid]
  rw [sum_map_of_forall_eq cloud (fun q => q.x) p.x (fun q hq => by rw [hall q hq]),
    sum_map_of_forall_eq cloud (fun q => q.y) p.y (fun q hq => by rw [hall q hq]),
    sum_map_of_forall_eq cloud (fun q => q.z) p.z (fun q hq => by rw [hall q hq])]
  exact ⟨mul_div_cancel_left₀ _ hn, mul_div_cancel_left₀ _ hn, mul_div_cancel_left₀ _ hn⟩

/-- C17 (degenerate single-location cloud). For every non-empty cloud all of whose points
equal one position `p`, and for any matrix the solver returns, the constructor returns a
box with width = height = depth = 0 and translation exactly `p`. -/
theorem fit_single_location (eigenvectors : Matrix3f K → Matrix3f K)
    (toQuaternion : Matrix3f K → Quaternionf K) (cloud : List (Vector3f K))
    (p : Vector3f K) (hne : cloud ≠ []) (hall : ∀ q ∈ cloud, q = p) :
    ∃ b, OrientedBoundingBox.fit eigenvectors toQuaternion cloud = some b ∧
      b.width = 0 ∧ b.height = 0 ∧ b.depth = 0 ∧ b.translation = p := by
  obtain ⟨mn, mx, -, hx, hy, hz, hfit⟩ := fit_eq_some eigenvectors toQuaternion cloud hne
  have hc := compute3DCentroid_single_location cloud p hne hall
  have hzero : ∀ q ∈ OrientedBoundingBox.cPoints eigenvectors cloud, q = ⟨0, 0, 0⟩ := by
    intro q hq
    obtain ⟨r, hr, rfl⟩ := (mem_cPoints eigenvectors cloud q).mp hq
    rw [hall r hr, hc, Vector3f.ext_iff3]
    simp only [Vector3f.add, Vector3f.smul]
    refine ⟨?_, ?_, ?_⟩ <;> ring
  obtain ⟨-, ⟨q1, hq1, ex1⟩, ⟨q2, hq2, ex2⟩⟩ := hx
  obtain ⟨-, ⟨q3, hq3, ey1⟩, ⟨q4, hq4, ey2⟩⟩ := hy
  obtain ⟨-, ⟨q5, hq5, ez1⟩, ⟨q6, hq6, ez2⟩⟩ := hz
  rw [hzero q1 hq1] at ex1
  rw [hzero q2 hq2] at ex2
  rw [hzero q3 hq3] at ey1
  rw [hzero q4 hq4] at ey2
  rw [hzero q5 hq5] at ez1
  rw [hzero q6 hq6] at ez2
  simp only at ex1 ex2 ey1 ey2 ez1 ez2
  refine ⟨_, hfit, ?_, ?_, ?_, ?_⟩
  · simp only [← ex1, ← ex2, sub_zero]
  · simp only [← ey1, ← ey2, sub_zero]
  · simp only [← ez1, ← ez2, sub_zero]
  · rw [hc, Vector3f.ext_iff3]
    simp only [Vector3f.add, Vector3f.smul, Matrix3f.mulVec, ← ex1, ← ex2, ← ey1, ← ey2,
      ← ez1, ← ez2]
    refine ⟨?_, ?_, ?_⟩ <;> ring

/-- Witness for C17: three copies of the point (4, -1, 7) with the sample solver answer. -/
theorem fit_single_location_witness :
    ([⟨4, -1, 7⟩, ⟨4, -1, 7⟩, ⟨4, -1, 7⟩] : List (Vector3f ℚ)) ≠ [] ∧
    (∀ q ∈ ([⟨4, -1, 7⟩, ⟨4, -1, 7⟩, ⟨4, -1, 7⟩] : List (Vector3f ℚ)), q = ⟨4, -1, 7⟩) ∧
    ∃ b, OrientedBoundingBox.fit sampleEigenvectors sampleToQuaternion
        [⟨4, -1, 7⟩, ⟨4, -1, 7⟩, ⟨4, -1, 7⟩] = some b ∧
      b.width = 0 ∧ b.height = 0 ∧ b.depth = 0 ∧ b.translation = ⟨4, -1, 7⟩ :=
  ⟨List.cons_ne_nil _ _, by simp,
   fit_single_location sampleEigenvectors sampleToQuaternion
     [⟨4, -1, 7⟩, ⟨4, -1, 7⟩, ⟨4, -1, 7⟩] ⟨4, -1, 7⟩ (List.cons_ne_nil _ _) (by simp)⟩

/-- The centroid does not depend on the order of the points. -/
theorem compute3DCentroid_perm (cloud cloud2 : List (Vector3f K))
    (hperm : List.Perm cloud2 cloud) : compute3DCentroid cloud2 = compute3DCentroid cloud := by
  simp only [compute3DCentroid, hperm.length_eq, (hperm.map (fun p => p.x)).sum_eq,
    (hperm.map (fun p => p.y)).sum_eq, (hperm.map (fun p => p.z)).sum_eq]

/-- An entry of the covariance does not depend on the order of the points. -/
theorem covarianceEntry_perm (cloud cloud2 : List (Vector3f K)) (c : Vector3f K)
    (f g : Vector3f K → K) (hperm : List.Perm cloud2 cloud) :
    covarianceEntry cloud2 c f g = covarianceEntry cloud c f g := by
  simp only [covarianceEntry, hperm.length_eq,
    (hperm.map (fun p => (f p - f c) * (g p - g c))).sum_eq]

/-- The axis matrix does not depend on the order of the points. -/
theorem eigDx_perm (eigenvectors : Matrix3f K → Matrix3f K) (cloud cloud2 : List (Vector3f K))
    (hperm : List.Perm cloud2 cloud) :
    OrientedBoundingBox.eigDx eigenvectors cloud2 = OrientedBoundingBox.eigDx eigenvectors cloud := by
  simp only [OrientedBoundingBox.eigDx, computeCovarianceMatrixNormalized,
    compute3DCentroid_perm cloud cloud2 hperm, covarianceEntry_perm cloud cloud2 _ _ _ hperm]

/-- C18 (order independence). For every non-empty cloud and every permutation of its
points, with the eigenvector matrix a function of the covariance matrix, the constructor
returns the same box for both: the same translation, rotation, width, height and depth. -/
theorem fit_order_independence (eigenvectors : Matrix3f K → Matrix3f K)
    (toQuaternion : Matrix3f K → Quaternionf K) (cloud cloud2 : List (Vector3f K))
    (hperm : List.Perm cloud2 cloud) (hne : cloud ≠ []) :
    ∃ b b2, OrientedBoundingBox.fit eigenvectors toQuaternion cloud = some b ∧
      OrientedBoundingBox.fit eigenvectors toQuaternion cloud2 = some b2 ∧
      b2.translation = b.translation ∧ b2.rotation = b.rotation ∧
      b2.width = b.width ∧ b2.height = b.height ∧ b2.depth = b.depth := by
  have hne2 : cloud2 ≠ [] := by
    intro h
    have hl := hperm.length_eq
    rw [h] at hl
    exact hne (List.length_eq_zero.mp hl.symm)
  obtain ⟨mn, mx, -, hx, hy, hz, hfit⟩ := fit_eq_some eigenvectors toQuaternion cloud hne
  obtain ⟨mn2, mx2, -, hx2, hy2, hz2, hfit2⟩ :=
    fit_eq_some eigenvectors toQuaternion cloud2 hne2
  have hmem : ∀ q, q ∈ OrientedBoundingBox.cPoints eigenvectors cloud2 ↔
      q ∈ OrientedBoundingBox.cPoints eigenvectors cloud := by
    intro q
    simp only [mem_cPoints, eigDx_perm eigenvectors cloud cloud2 hperm,
      compute3DCentroid_perm cloud cloud2 hperm, hperm.mem_iff]
  obtain ⟨ex1, ex2⟩ := isExactRange_unique _ _ _ _ _ _ hx2
    (isExactRange_of_mem_iff _ _ _ _ _ hmem hx)
  obtain ⟨ey1, ey2⟩ := isExactRange_unique _ _ _ _ _ _ hy2
    (isExactRange_of_mem_iff _ _ _ _ _ hmem hy)
  obtain ⟨ez1, ez2⟩ := isExactRange_unique _ _ _ _ _ _ hz2
    (isExactRange_of_mem_iff _ _ _ _ _ hmem hz)
  have hmn : mn2 = mn := (Vector3f.ext_iff3 _ _).mpr ⟨ex1, ey1, ez1⟩
  have hmx : mx2 = mx := (Vector3f.ext_iff3 _ _).mpr ⟨ex2, ey2, ez2⟩
  refine ⟨_, _, hfit, hfit2, ?_, ?_, ?_, ?_, ?_⟩ <;>
    simp only [hmn, hmx, eigDx_perm eigenvectors cloud cloud2 hperm,
      compute3DCentroid_perm cloud cloud2 hperm]

/-- Witness for C18: the sample cloud with its first two points swapped. -/
theorem fit_order_independence_witness :
    List.Perm [⟨2, 1, 0⟩, ⟨0, 0, 0⟩, ⟨1, 3, 5⟩] sampleCloud ∧ sampleCloud ≠ [] ∧
    ∃ b b2, OrientedBoundingBox.fit sampleEigenvectors sampleToQuaternion sampleCloud = some b ∧
      OrientedBoundingBox.fit sampleEigenvectors sampleToQuaternion
        [⟨2, 1, 0⟩, ⟨0, 0, 0⟩, ⟨1, 3, 5⟩] = some b2 ∧
      b2.translation = b.translation ∧ b2.rotation = b.rotation ∧
      b2.width = b.width ∧ b2.height = b.height ∧ b2.depth = b.depth :=
  ⟨List.Perm.swap _ _ _, List.cons_ne_nil _ _,
   fit_order_independence sampleEigenvectors sampleToQuaternion sampleCloud
     [⟨2, 1, 0⟩, ⟨0, 0, 0⟩, ⟨1, 3, 5⟩] (List.Perm.swap _ _ _) (List.cons_ne_nil _ _)⟩

end DegenerateAndOrder

end common

/-! ## The unit cube: theorems -/

namespace common

section UnitCube

variable {K : Type} [LinearOrderedField K]

/-- The centroid of the unit cube is the origin. -/
theorem compute3DCentroid_unitCube :
    compute3DCentroid (unitCube : List (Vector3f K)) = ⟨0, 0, 0⟩ := by
  norm_num [compute3DCentroid, unitCube]

end UnitCube

end common

namespace common

section UnitCubeFit

variable {K : Type} [LinearOrderedField K]

end UnitCubeFit

end common

/-! ## The wire format: reads past the end -/

namespace common

section UncheckedReads

variable {K : Type}

end UncheckedReads

end common

/-! ## The unit cube: the fitted box -/

namespace common

section UnitCubeBox

variable {K : Type} [LinearOrderedField K]

/-- With the identity answer of the solver the constructor, evaluated on the unit cube,
returns the unit box at the origin with the identity rotation. -/
theorem unitCube_identity_box :
    OrientedBoundingBox.fit identityEigenvectors identityToQuaternion unitCube
      = some ⟨⟨0, 0, 0⟩, ⟨1, 0, 0, 0⟩, 1, 1, 1⟩ := by
  simp only [OrientedBoundingBox.fit, OrientedBoundingBox.cPoints, OrientedBoundingBox.eigDx,
    compute3DCentroid_unitCube, identityEigenvectors, identityToQuaternion]
  norm_num [OrientedBoundingBox.p2w, transformPointCloud, unitCube, Matrix3f.setCol2ToCross,
    Matrix3f.transpose, Matrix3f.mulVec, Vector3f.cross, Vector3f.add, Vector3f.smul,
    getMinMax3D, minMaxStep]

end UnitCubeBox

end common
